import Mathlib

/-!
Shallow embedding of the `jam-track-generator` Rust crate
(`src/music_theory.rs`, `src/audio.rs`, `src/lib.rs`) and proofs of the
specification claims about it.

Sample values are modelled as real numbers (`ℝ`); Rust's `as usize`
float-to-integer cast is modelled by `Int.toNat ∘ Int.floor`, which agrees
with the Rust saturating truncation on all non-NaN inputs that matter here.
-/

set_option autoImplicit false

namespace JamTrack

/-- The 12 pitch classes, embedding the Rust `enum Note` from
`src/music_theory.rs` (discriminants 0–11, C = 0). -/
inductive Note where
  | C
  | CSharp
  | D
  | DSharp
  | E
  | F
  | FSharp
  | G
  | GSharp
  | A
  | ASharp
  | B
deriving DecidableEq, Repr, Fintype

/-- Embedding of `Note::semitone` (`*self as u8`): the enum discriminant. -/
def Note.semitone : Note → ℕ
  | .C => 0
  | .CSharp => 1
  | .D => 2
  | .DSharp => 3
  | .E => 4
  | .F => 5
  | .FSharp => 6
  | .G => 7
  | .GSharp => 8
  | .A => 9
  | .ASharp => 10
  | .B => 11

/-- Embedding of `Note::from_semitone`: matches on `semitone % 12`; the Rust
`_ => unreachable!()` arm is modelled by the (never reached) default `.C`.
`Note.from_semitone_checked` below models the same match with the
unreachable arm visible as `none`. -/
def Note.from_semitone (semitone : ℕ) : Note :=
  match semitone % 12 with
  | 0 => .C
  | 1 => .CSharp
  | 2 => .D
  | 3 => .DSharp
  | 4 => .E
  | 5 => .F
  | 6 => .FSharp
  | 7 => .G
  | 8 => .GSharp
  | 9 => .A
  | 10 => .ASharp
  | 11 => .B
  | _ => .C

/-- Embedding of `Note::from_semitone` keeping the `unreachable!()` arm
observable: that arm is modelled as `none`. -/
def Note.from_semitone_checked (semitone : ℕ) : Option Note :=
  match semitone % 12 with
  | 0 => some .C
  | 1 => some .CSharp
  | 2 => some .D
  | 3 => some .DSharp
  | 4 => some .E
  | 5 => some .F
  | 6 => some .FSharp
  | 7 => some .G
  | 8 => some .GSharp
  | 9 => some .A
  | 10 => some .ASharp
  | 11 => some .B
  | _ => none

/-- Embedding of `Note::transpose`: `(self.semitone() as i32 + semitones)
.rem_euclid(12)` then `from_semitone`. Lean's `Int` `%` is Euclidean
remainder, exactly Rust's `rem_euclid`. -/
def Note.transpose (n : Note) (semitones : ℤ) : Note :=
  Note.from_semitone (((n.semitone : ℤ) + semitones) % 12).toNat

/-- Embedding of the `Display` impl for `Note` (`"C"`, `"C#"`, …). -/
def Note.toName : Note → String
  | .C => "C"
  | .CSharp => "C#"
  | .D => "D"
  | .DSharp => "D#"
  | .E => "E"
  | .F => "F"
  | .FSharp => "F#"
  | .G => "G"
  | .GSharp => "G#"
  | .A => "A"
  | .ASharp => "A#"
  | .B => "B"

/-- ASCII upper-casing, modelling Rust's `str::to_uppercase` on the ASCII
inputs relevant to note names. -/
def toUpperAscii (s : String) : String :=
  String.mk (s.data.map Char.toUpper)

/-- ASCII lower-casing, modelling Rust's `str::to_lowercase` on the ASCII
inputs relevant to mode names. -/
def toLowerAscii (s : String) : String :=
  String.mk (s.data.map Char.toLower)

/-- Embedding of `Note::from_string`: upper-case the input, then match the
fixed table of canonical spellings and enharmonic aliases. -/
def Note.from_string (s : String) : Option Note :=
  match toUpperAscii s with
  | "C" => some .C
  | "C#" => some .CSharp
  | "DB" => some .CSharp
  | "D" => some .D
  | "D#" => some .DSharp
  | "EB" => some .DSharp
  | "E" => some .E
  | "FB" => some .E
  | "F" => some .F
  | "E#" => some .F
  | "F#" => some .FSharp
  | "GB" => some .FSharp
  | "G" => some .G
  | "G#" => some .GSharp
  | "AB" => some .GSharp
  | "A" => some .A
  | "A#" => some .ASharp
  | "BB" => some .ASharp
  | "B" => some .B
  | "CB" => some .B
  | _ => none

/-- Embedding of `Note::frequency`: `440 * 2^(((octave-4)*12 + (semitone-9))/12)`
with the integer part computed in `i32` and the exponent in `f64`, modelled
over `ℝ`. -/
noncomputable def Note.frequency (n : Note) (octave : ℕ) : ℝ :=
  let a4 : ℝ := 440
  let semitones_from_a4 : ℤ := ((octave : ℤ) - 4) * 12 + ((n.semitone : ℤ) - 9)
  a4 * (2 : ℝ) ^ ((semitones_from_a4 : ℝ) / 12)

/-- The 7 modes, embedding the Rust `enum Mode`. -/
inductive Mode where
  | Ionian
  | Dorian
  | Phrygian
  | Lydian
  | Mixolydian
  | Aeolian
  | Locrian
deriving DecidableEq, Repr, Fintype

/-- Embedding of `Mode::intervals`. -/
def Mode.intervals : Mode → List ℕ
  | .Ionian => [0, 2, 4, 5, 7, 9, 11]
  | .Dorian => [0, 2, 3, 5, 7, 9, 10]
  | .Phrygian => [0, 1, 3, 5, 7, 8, 10]
  | .Lydian => [0, 2, 4, 6, 7, 9, 11]
  | .Mixolydian => [0, 2, 4, 5, 7, 9, 10]
  | .Aeolian => [0, 2, 3, 5, 7, 8, 10]
  | .Locrian => [0, 1, 3, 5, 6, 8, 10]

/-- Embedding of `Mode::from_string`: lower-case the input, then match the
canonical names plus the `"major"`/`"minor"` aliases. -/
def Mode.from_string (s : String) : Option Mode :=
  match toLowerAscii s with
  | "ionian" => some .Ionian
  | "major" => some .Ionian
  | "dorian" => some .Dorian
  | "phrygian" => some .Phrygian
  | "lydian" => some .Lydian
  | "mixolydian" => some .Mixolydian
  | "aeolian" => some .Aeolian
  | "minor" => some .Aeolian
  | "locrian" => some .Locrian
  | _ => none

/-- Embedding of `Mode::scale`: transpose the root by each interval. -/
def Mode.scale (m : Mode) (root : Note) : List Note :=
  m.intervals.map (fun interval => root.transpose (interval : ℤ))

/-- Embedding of the Rust `struct Chord`. -/
structure Chord where
  root : Note
  intervals : List ℕ
  name : String
deriving DecidableEq, Repr

/-- Embedding of `Chord::new`. -/
def Chord.new (root : Note) (intervals : List ℕ) (name : String) : Chord :=
  ⟨root, intervals, name⟩

/-- Embedding of `Chord::notes`. -/
def Chord.notes (c : Chord) : List Note :=
  c.intervals.map (fun interval => c.root.transpose (interval : ℤ))

/-- Embedding of `Chord::frequencies`. -/
noncomputable def Chord.frequencies (c : Chord) (octave : ℕ) : List ℝ :=
  c.notes.map (fun note => note.frequency octave)

/-- Embedding of `Chord::major`. -/
def Chord.major (root : Note) : Chord :=
  Chord.new root [0, 4, 7] root.toName

/-- Embedding of `Chord::minor`. -/
def Chord.minor (root : Note) : Chord :=
  Chord.new root [0, 3, 7] (root.toName ++ "m")

/-- Embedding of `Chord::diminished`. -/
def Chord.diminished (root : Note) : Chord :=
  Chord.new root [0, 3, 6] (root.toName ++ "dim")

/-- Embedding of `Chord::sus2`. -/
def Chord.sus2 (root : Note) : Chord :=
  Chord.new root [0, 2, 7] (root.toName ++ "sus2")

/-- Embedding of `Chord::sus4`. -/
def Chord.sus4 (root : Note) : Chord :=
  Chord.new root [0, 5, 7] (root.toName ++ "sus4")

/-- Embedding of `Chord::power`. -/
def Chord.power (root : Note) : Chord :=
  Chord.new root [0, 7] (root.toName ++ "5")

/-- Embedding of `generate_modal_progression` from `src/music_theory.rs`.
`scale[i]` (a Rust `Vec` index, always in range since the scale has 7
notes) is modelled by `List.getD i .C`. -/
def generate_modal_progression (root : Note) (mode : Mode) : List Chord :=
  let scale := mode.scale root
  match mode with
  | .Phrygian =>
      [Chord.minor (scale.getD 0 .C), Chord.major (scale.getD 1 .C),
       Chord.minor (scale.getD 0 .C), Chord.major (scale.getD 6 .C)]
  | .Dorian =>
      [Chord.minor (scale.getD 0 .C), Chord.major (scale.getD 3 .C),
       Chord.minor (scale.getD 0 .C), Chord.major (scale.getD 3 .C)]
  | .Lydian =>
      [Chord.major (scale.getD 0 .C), Chord.major (scale.getD 1 .C),
       Chord.major (scale.getD 0 .C), Chord.major (scale.getD 1 .C)]
  | .Mixolydian =>
      [Chord.major (scale.getD 0 .C), Chord.major (scale.getD 6 .C),
       Chord.major (scale.getD 0 .C), Chord.major (scale.getD 6 .C)]
  | .Aeolian =>
      [Chord.minor (scale.getD 0 .C), Chord.minor (scale.getD 3 .C),
       Chord.minor (scale.getD 0 .C), Chord.minor (scale.getD 4 .C)]
  | .Ionian =>
      [Chord.major (scale.getD 0 .C), Chord.major (scale.getD 3 .C),
       Chord.major (scale.getD 0 .C), Chord.major (scale.getD 4 .C)]
  | .Locrian =>
      [Chord.diminished (scale.getD 0 .C), Chord.major (scale.getD 1 .C),
       Chord.diminished (scale.getD 0 .C), Chord.major (scale.getD 4 .C)]

/-- Chord quality, as used by the spec's per-mode progression template. -/
inductive Quality where
  | maj
  | minor
  | dim
deriving DecidableEq, Repr

/-- Builds the chord of a given quality on a root, as the spec's template
table prescribes. -/
def Quality.build : Quality → Note → Chord
  | .maj => Chord.major
  | .minor => Chord.minor
  | .dim => Chord.diminished

/-- The spec's per-mode template table (§4.2), as (scale-degree index,
quality) pairs. This definition is written from the spec's table, to be
compared with `generate_modal_progression`. -/
def modeTemplate : Mode → List (ℕ × Quality)
  | .Ionian => [(0, .maj), (3, .maj), (0, .maj), (4, .maj)]
  | .Dorian => [(0, .minor), (3, .maj), (0, .minor), (3, .maj)]
  | .Phrygian => [(0, .minor), (1, .maj), (0, .minor), (6, .maj)]
  | .Lydian => [(0, .maj), (1, .maj), (0, .maj), (1, .maj)]
  | .Mixolydian => [(0, .maj), (6, .maj), (0, .maj), (6, .maj)]
  | .Aeolian => [(0, .minor), (3, .minor), (0, .minor), (4, .minor)]
  | .Locrian => [(0, .dim), (1, .maj), (0, .dim), (4, .maj)]

/-- The progression the spec's table prescribes for (root, mode): for each
template entry, build the chord of the given quality on the scale note at
the given degree index. -/
def progressionFromTable (root : Note) (mode : Mode) : List Chord :=
  (modeTemplate mode).map (fun e => e.2.build ((mode.scale root).getD e.1 .C))

/-- Embedding of the constant `SAMPLE_RATE` from `src/audio.rs`. -/
def SAMPLE_RATE : ℝ := 44100

/-- Models Rust's `as usize` cast of an `f64`: truncation toward zero,
saturating at 0 for negative values (for all reals this coincides with
`Int.toNat ∘ Int.floor`). -/
noncomputable def floorToNat (x : ℝ) : ℕ :=
  (⌊x⌋).toNat

/-- Embedding of `generate_tone_with_envelope` from `src/audio.rs`: a
3-harmonic additive oscillator shaped by a linear ADSR envelope, with phase
sample counts truncated from seconds and the sustain count saturating at 0
(Rust `saturating_sub`, Lean `Nat` subtraction). -/
noncomputable def generate_tone_with_envelope (frequency duration_seconds attack decay
    sustain_level release : ℝ) : List ℝ :=
  let num_samples := floorToNat (duration_seconds * SAMPLE_RATE)
  let attack_samples := floorToNat (attack * SAMPLE_RATE)
  let decay_samples := floorToNat (decay * SAMPLE_RATE)
  let release_samples := floorToNat (release * SAMPLE_RATE)
  let sustain_samples := num_samples - (attack_samples + decay_samples + release_samples)
  (List.range num_samples).map (fun (i : ℕ) =>
    let t : ℝ := (i : ℝ) / SAMPLE_RATE
    let fundamental := Real.sin (2 * Real.pi * frequency * t)
    let harmonic2 := 0.3 * Real.sin (2 * Real.pi * frequency * 2 * t)
    let harmonic3 := 0.1 * Real.sin (2 * Real.pi * frequency * 3 * t)
    let wave := fundamental + harmonic2 + harmonic3
    let envelope :=
      if i < attack_samples then
        (i : ℝ) / (attack_samples : ℝ)
      else if i < attack_samples + decay_samples then
        let decay_steps : ℕ := i - attack_samples
        1 - (1 - sustain_level) * ((decay_steps : ℝ) / (decay_samples : ℝ))
      else if i < attack_samples + decay_samples + sustain_samples then
        sustain_level
      else
        let release_steps : ℕ := i - attack_samples - decay_samples - sustain_samples
        sustain_level * (1 - (release_steps : ℝ) / (release_samples : ℝ))
    wave * envelope * 0.3)

/-- The inner accumulation loop shared by `generate_chord_samples` and
`mix_samples`: for each index `i` of `buf` with `i < acc.length`,
`acc[i] += buf[i] / n`; entries of `acc` beyond `buf` are unchanged, entries
of `buf` beyond `acc` are dropped (the `if i < samples.len()` guard). -/
noncomputable def mixInto (n : ℕ) : List ℝ → List ℝ → List ℝ
  | acc, [] => acc
  | [], _ => []
  | a :: acc, s :: rest => (a + s / (n : ℝ)) :: mixInto n acc rest

/-- Embedding of `generate_chord_samples` from `src/audio.rs`: start from a
zero buffer of `duration * SAMPLE_RATE` samples and mix in each note's
tone, dividing each sample by the note count. -/
noncomputable def generate_chord_samples (chord : Chord) (octave : ℕ)
    (duration_seconds attack decay sustain release : ℝ) : List ℝ :=
  let num_samples := floorToNat (duration_seconds * SAMPLE_RATE)
  let frequencies := chord.frequencies octave
  frequencies.foldl
    (fun samples freq =>
      mixInto frequencies.length samples
        (generate_tone_with_envelope freq duration_seconds attack decay sustain release))
    (List.replicate num_samples 0)

/-- Embedding of `generate_progression_samples` from `src/audio.rs`:
derive the chord duration from tempo and beats-per-chord, fix the envelope
policy, render each chord and append the buffers in order. -/
noncomputable def generate_progression_samples (chords : List Chord) (octave : ℕ)
    (tempo beats_per_chord : ℝ) : List ℝ :=
  let seconds_per_beat := 60 / tempo
  let chord_duration := seconds_per_beat * beats_per_chord
  let attack : ℝ := 0.01
  let decay : ℝ := 0.1
  let sustain : ℝ := 0.7
  let release := chord_duration * 0.3
  chords.foldl
    (fun all_samples chord =>
      all_samples ++
        generate_chord_samples chord octave chord_duration attack decay sustain release)
    []

/-- Embedding of `mix_samples` from `src/audio.rs`: empty input yields an
empty buffer; otherwise accumulate every buffer, scaled by 1/count, into a
zero buffer of the maximum input length. -/
noncomputable def mix_samples (buffers : List (List ℝ)) : List ℝ :=
  if buffers.isEmpty then []
  else
    let max_len := ((buffers.map List.length).max?).getD 0
    let num_buffers := buffers.length
    buffers.foldl (fun result buffer => mixInto num_buffers result buffer)
      (List.replicate max_len 0)

/-- The loop of `apply_lowpass_filter`: given the previous output sample,
produce the outputs for the remaining inputs by
`out = prev + alpha * (s - prev)`. -/
noncomputable def lowpassFrom (alpha : ℝ) : ℝ → List ℝ → List ℝ
  | _, [] => []
  | prev, s :: rest =>
      let f := prev + alpha * (s - prev)
      f :: lowpassFrom alpha f rest

/-- Embedding of `apply_lowpass_filter` from `src/audio.rs`. The Rust code
writes `filtered[0] = samples[0]` unconditionally, which panics (index out
of bounds) on an empty input: that panic is modelled as `none`. -/
noncomputable def apply_lowpass_filter (samples : List ℝ) (cutoff_freq : ℝ) :
    Option (List ℝ) :=
  let rc := 1 / (2 * Real.pi * cutoff_freq)
  let dt := 1 / SAMPLE_RATE
  let alpha := dt / (rc + dt)
  match samples with
  | [] => none
  | s0 :: rest => some (s0 :: lowpassFrom alpha s0 rest)

/-- Embedding of the configuration record from `src/lib.rs`. -/
structure JamTrackConfig where
  key : String
  mode : String
  tempo : ℝ
  octave : ℕ
  beats_per_chord : ℝ

/-- Embedding of `JamTrackGenerator::generate_samples` from `src/lib.rs`:
parse the key and the mode, failing with `"Invalid key: <key>"` or
`"Invalid mode: <mode>"`, then render the modal progression. -/
noncomputable def generate_samples (config : JamTrackConfig) : Except String (List ℝ) :=
  match Note.from_string config.key with
  | none => .error ("Invalid key: " ++ config.key)
  | some root =>
    match Mode.from_string config.mode with
    | none => .error ("Invalid mode: " ++ config.mode)
    | some mode =>
      .ok (generate_progression_samples (generate_modal_progression root mode)
        config.octave config.tempo config.beats_per_chord)

/-- Embedding of `JamTrackGenerator::get_progression_info` from
`src/lib.rs`: same parsing and errors, then the chord names of the
progression (serialization to JSON is out of scope). -/
def get_progression_info (config : JamTrackConfig) : Except String (List String) :=
  match Note.from_string config.key with
  | none => .error ("Invalid key: " ++ config.key)
  | some root =>
    match Mode.from_string config.mode with
    | none => .error ("Invalid mode: " ++ config.mode)
    | some mode =>
      .ok ((generate_modal_progression root mode).map Chord.name)

/-! Helper lemmas about the pitch-class arithmetic. -/

theorem Note.semitone_lt_twelve (nt : Note) : nt.semitone < 12 := by
  cases nt <;> decide

theorem Note.semitone_inj (a b : Note) (h : a.semitone = b.semitone) : a = b := by
  revert h
  cases a <;> cases b <;> decide

theorem Note.semitone_from_semitone (s : ℕ) :
    (Note.from_semitone s).semitone = s % 12 := by
  unfold Note.from_semitone
  have h : s % 12 = 0 ∨ s % 12 = 1 ∨ s % 12 = 2 ∨ s % 12 = 3 ∨ s % 12 = 4 ∨ s % 12 = 5 ∨
      s % 12 = 6 ∨ s % 12 = 7 ∨ s % 12 = 8 ∨ s % 12 = 9 ∨ s % 12 = 10 ∨ s % 12 = 11 := by
    omega
  rcases h with h|h|h|h|h|h|h|h|h|h|h|h <;> rw [h] <;> decide

theorem Note.transpose_semitone (p : Note) (n : ℤ) :
    (p.transpose n).semitone = (((p.semitone : ℤ) + n) % 12).toNat := by
  unfold Note.transpose
  rw [Note.semitone_from_semitone]
  omega

/-- C5: `Note::transpose` is total, sends `p` to the note of ordinal
`(value + n) mod 12`, and `p.transpose(n).transpose(-n) = p`. -/
theorem c5_transpose_ordinal_and_inverse (p : Note) (n : ℤ) :
    (p.transpose n).semitone = (((p.semitone : ℤ) + n) % 12).toNat ∧
    (p.transpose n).transpose (-n) = p := by
  refine ⟨Note.transpose_semitone p n, ?_⟩
  apply Note.semitone_inj
  rw [Note.transpose_semitone, Note.transpose_semitone]
  have hp : p.semitone < 12 := Note.semitone_lt_twelve p
  omega

/-- C10: `Note::from_semitone` is total on every input, returns the note of
ordinal `s mod 12` (so the `unreachable!()` arm, modelled by `none` in
`from_semitone_checked`, is never taken), satisfies
`from_semitone s = from_semitone (s % 12)`, and inverts `semitone`. -/
theorem c10_from_semitone_total :
    (∀ s : ℕ, Note.from_semitone_checked s = some (Note.from_semitone s)) ∧
    (∀ s : ℕ, (Note.from_semitone s).semitone = s % 12) ∧
    (∀ s : ℕ, Note.from_semitone s = Note.from_semitone (s % 12)) ∧
    (∀ x : Note, Note.from_semitone x.semitone = x) := by
  refine ⟨?_, Note.semitone_from_semitone, ?_, ?_⟩
  · intro s
    unfold Note.from_semitone_checked Note.from_semitone
    have h : s % 12 = 0 ∨ s % 12 = 1 ∨ s % 12 = 2 ∨ s % 12 = 3 ∨ s % 12 = 4 ∨ s % 12 = 5 ∨
        s % 12 = 6 ∨ s % 12 = 7 ∨ s % 12 = 8 ∨ s % 12 = 9 ∨ s % 12 = 10 ∨ s % 12 = 11 := by
      omega
    rcases h with h|h|h|h|h|h|h|h|h|h|h|h <;> rw [h]
  · intro s
    apply Note.semitone_inj
    rw [Note.semitone_from_semitone, Note.semitone_from_semitone]
    omega
  · intro x
    cases x <;> decide

/-- C1: `generate_modal_progression` returns, for every root and mode,
exactly the 4 chords the spec's per-mode template table prescribes, and
never fails. -/
theorem c1_modal_progression_matches_table (root : Note) (mode : Mode) :
    generate_modal_progression root mode = progressionFromTable root mode ∧
    (generate_modal_progression root mode).length = 4 := by
  cases root <;> cases mode <;> exact ⟨rfl, rfl⟩

/-- C2 counterexample: the match in `Note::from_string` has no `"B#"` arm,
so `parse("B#")` is `None`, not `Some(C)` as the claim states. -/
theorem c2_note_parsing_counterexample :
    Note.from_string "B#" = none ∧ Note.from_string "B#" ≠ some Note.C := by
  decide

/-- C2 (amended): `Note::from_string` parses every canonical sharp/flat
spelling and the enharmonic aliases `Gb`, `E#`, `Fb`, `Cb` (among the
flat aliases), case-insensitively — inputs equal up to letter case parse
identically — but `"B#"` is not accepted and parses to `None`. -/
theorem c2_note_parsing_aliases :
    (Note.from_string "F#" = some Note.FSharp ∧
     Note.from_string "Gb" = some Note.FSharp ∧
     Note.from_string "E#" = some Note.F ∧
     Note.from_string "Fb" = some Note.E ∧
     Note.from_string "Cb" = some Note.B) ∧
    Note.from_string "B#" = none ∧
    (["C", "C#", "Db", "D", "D#", "Eb", "E", "F", "F#", "Gb", "G", "G#", "Ab",
        "A", "A#", "Bb", "B"].map Note.from_string =
      [some .C, some .CSharp, some .CSharp, some .D, some .DSharp, some .DSharp,
       some .E, some .F, some .FSharp, some .FSharp, some .G, some .GSharp,
       some .GSharp, some .A, some .ASharp, some .ASharp, some .B]) ∧
    (∀ s t : String, toUpperAscii s = toUpperAscii t →
      Note.from_string s = Note.from_string t) := by
  refine ⟨by decide, by decide, by decide, ?_⟩
  intro s t h
  unfold Note.from_string
  rw [h]

/-- Witness for C2 at a concrete input: `"gB"` and `"Gb"` agree up to
letter case and parse to the same value. -/
theorem c2_note_parsing_aliases_witness :
    toUpperAscii "gB" = toUpperAscii "Gb" ∧
    Note.from_string "gB" = Note.from_string "Gb" :=
  ⟨by decide, c2_note_parsing_aliases.2.2.2 "gB" "Gb" (by decide)⟩

/-- C6: `Note::frequency` computes `440 * 2^(((octave-4)*12 + (value-9))/12)`,
with `frequency(A,4) = 440` and `frequency(A,5) = 880` exactly. -/
theorem c6_frequency_formula :
    (∀ (nt : Note) (octave : ℕ),
      nt.frequency octave =
        440 * (2 : ℝ) ^
          (((((octave : ℤ) - 4) * 12 + ((nt.semitone : ℤ) - 9) : ℤ) : ℝ) / 12)) ∧
    Note.A.frequency 4 = 440 ∧
    Note.A.frequency 5 = 880 := by
  refine ⟨fun nt octave => rfl, ?_, ?_⟩
  · simp only [Note.frequency, Note.semitone]
    norm_num
  · simp only [Note.frequency, Note.semitone]
    norm_num

/-- C7: with an unparsable key or mode string, both `generate_samples` and
`get_progression_info` return an error naming the offending input, never a
default. -/
theorem c7_invalid_key_or_mode (config : JamTrackConfig) :
    (Note.from_string config.key = none →
      generate_samples config = .error ("Invalid key: " ++ config.key) ∧
      get_progression_info config = .error ("Invalid key: " ++ config.key)) ∧
    (∀ root : Note, Note.from_string config.key = some root →
      Mode.from_string config.mode = none →
      generate_samples config = .error ("Invalid mode: " ++ config.mode) ∧
      get_progression_info config = .error ("Invalid mode: " ++ config.mode)) := by
  constructor
  · intro h
    constructor
    · unfold generate_samples
      rw [h]
    · unfold get_progression_info
      rw [h]
  · intro root hk hm
    constructor
    · unfold generate_samples
      rw [hk, hm]
    · unfold get_progression_info
      rw [hk, hm]

/-- Witness for C7 at concrete inputs: key `"H"` and mode `"blues"` are
rejected with errors naming them. -/
theorem c7_invalid_key_or_mode_witness :
    Note.from_string "H" = none ∧
    generate_samples ⟨"H", "ionian", 120, 3, 4⟩ = .error "Invalid key: H" ∧
    Mode.from_string "blues" = none ∧
    get_progression_info ⟨"C", "blues", 120, 3, 4⟩ = .error "Invalid mode: blues" := by
  refine ⟨by decide, ?_, by decide, ?_⟩
  · exact ((c7_invalid_key_or_mode ⟨"H", "ionian", 120, 3, 4⟩).1 (by decide)).1
  · exact ((c7_invalid_key_or_mode ⟨"C", "blues", 120, 3, 4⟩).2 Note.C (by decide)
      (by decide)).2

/-! Helper lemmas about the audio buffers. -/

theorem getD_replicate_zero (num i : ℕ) : (List.replicate num (0 : ℝ)).getD i 0 = 0 := by
  induction num generalizing i with
  | zero => rfl
  | succ k ih =>
    cases i with
    | zero => rfl
    | succ j => exact ih j

theorem mixInto_length (n : ℕ) (acc buf : List ℝ) :
    (mixInto n acc buf).length = acc.length := by
  induction acc generalizing buf with
  | nil => cases buf <;> rfl
  | cons a as ih =>
    cases buf with
    | nil => rfl
    | cons s rest => simp [mixInto, ih]

theorem mixInto_getD (n : ℕ) (acc buf : List ℝ) (h : buf.length = acc.length) (i : ℕ) :
    (mixInto n acc buf).getD i 0 = acc.getD i 0 + buf.getD i 0 / (n : ℝ) := by
  induction acc generalizing buf i with
  | nil =>
    have hb : buf = [] := List.length_eq_zero.mp (by simpa using h)
    subst hb
    simp [mixInto]
  | cons a as ih =>
    cases buf with
    | nil => simp at h
    | cons s rest =>
      cases i with
      | zero => simp [mixInto]
      | succ j => simpa [mixInto] using ih rest (by simpa using h) j

theorem foldl_mixInto_length {α : Type} (n : ℕ) (f : α → List ℝ) (xs : List α)
    (acc : List ℝ) :
    (xs.foldl (fun ac x => mixInto n ac (f x)) acc).length = acc.length := by
  induction xs generalizing acc with
  | nil => rfl
  | cons x rest ih => rw [List.foldl_cons, ih, mixInto_length]

theorem foldl_mixInto_getD {α : Type} (n : ℕ) (f : α → List ℝ) (xs : List α)
    (acc : List ℝ) (i : ℕ) (h : ∀ x ∈ xs, (f x).length = acc.length) :
    (xs.foldl (fun ac x => mixInto n ac (f x)) acc).getD i 0 =
      acc.getD i 0 + (xs.map (fun x => (f x).getD i 0 / (n : ℝ))).sum := by
  induction xs generalizing acc with
  | nil => simp
  | cons x rest ih =>
    have hx : (f x).length = acc.length := h x (List.mem_cons_self x rest)
    have hrest : ∀ y ∈ rest, (f y).length = (mixInto n acc (f x)).length := by
      intro y hy
      rw [mixInto_length]
      exact h y (List.mem_cons_of_mem x hy)
    rw [List.foldl_cons, ih (mixInto n acc (f x)) hrest, mixInto_getD n acc (f x) hx i]
    simp [List.map_cons, List.sum_cons]
    ring

theorem tone_length (f d a dc sus r : ℝ) :
    (generate_tone_with_envelope f d a dc sus r).length = floorToNat (d * SAMPLE_RATE) := by
  simp [generate_tone_with_envelope]

theorem generate_chord_samples_length (chord : Chord) (octave : ℕ) (d a dc sus r : ℝ) :
    (generate_chord_samples chord octave d a dc sus r).length =
      floorToNat (d * SAMPLE_RATE) := by
  simp only [generate_chord_samples]
  rw [foldl_mixInto_length]
  simp

/-- C3: `generate_chord_samples` returns `round_down(duration*44100)` samples,
and each sample is the pointwise sum over the chord's notes of that note's
tone (rendered with the same duration and ADSR at the note's frequency),
each divided by the note count. -/
theorem c3_chord_samples_mix (chord : Chord) (octave : ℕ)
    (duration_seconds attack decay sustain release : ℝ) (_hd : 0 ≤ duration_seconds) :
    (generate_chord_samples chord octave duration_seconds attack decay sustain
        release).length = (⌊duration_seconds * 44100⌋).toNat ∧
    ∀ i : ℕ,
      (generate_chord_samples chord octave duration_seconds attack decay sustain
          release).getD i 0 =
        (chord.notes.map (fun note =>
          (generate_tone_with_envelope (note.frequency octave) duration_seconds attack
              decay sustain release).getD i 0 / (chord.notes.length : ℝ))).sum := by
  constructor
  · rw [generate_chord_samples_length]
    rfl
  · intro i
    simp only [generate_chord_samples]
    rw [foldl_mixInto_getD]
    · rw [getD_replicate_zero, zero_add]
      simp only [Chord.frequencies, List.map_map, List.length_map]
      rfl
    · intro x hx
      rw [tone_length, List.length_replicate]

/-- Witness for C3 at a concrete input: a C-major chord rendered for one
second yields 44100 samples. -/
theorem c3_chord_samples_mix_witness :
    0 ≤ (1 : ℝ) ∧
    (generate_chord_samples (Chord.major Note.C) 4 1 0.01 0.1 0.7 0.2).length = 44100 := by
  refine ⟨by norm_num, ?_⟩
  rw [(c3_chord_samples_mix (Chord.major Note.C) 4 1 0.01 0.1 0.7 0.2 (by norm_num)).1]
  norm_num
  rfl

theorem foldl_append_eq_flatten {α β : Type} (f : α → List β) (xs : List α)
    (acc : List β) :
    xs.foldl (fun all x => all ++ f x) acc = acc ++ (xs.map f).flatten := by
  induction xs generalizing acc with
  | nil => simp
  | cons x rest ih => simp [ih, List.append_assoc]

/-- C4: `generate_progression_samples` is the in-order concatenation of the
per-chord buffers rendered with `chordDuration = (60/tempo)*beatsPerChord`
and the fixed envelope attack=0.01, decay=0.1, sustain=0.7,
release=`chordDuration*0.3`; a 2-chord progression at tempo 120 and 4 beats
per chord yields `round_down(2*4*(60/120)*44100)` samples. -/
theorem c4_progression_concat (chords : List Chord) (octave : ℕ)
    (tempo beats_per_chord : ℝ) (_ht : 0 < tempo) (_hb : 0 < beats_per_chord) :
    generate_progression_samples chords octave tempo beats_per_chord =
      (chords.map (fun chord =>
        generate_chord_samples chord octave ((60 / tempo) * beats_per_chord) 0.01 0.1 0.7
          (((60 / tempo) * beats_per_chord) * 0.3))).flatten ∧
    ∀ c1 c2 : Chord,
      (generate_progression_samples [c1, c2] octave 120 4).length =
        (⌊(2 * 4 * (60 / 120) * 44100 : ℝ)⌋).toNat := by
  constructor
  · simp only [generate_progression_samples]
    rw [foldl_append_eq_flatten]
    rfl
  · intro c1 c2
    simp only [generate_progression_samples]
    rw [foldl_append_eq_flatten]
    simp only [List.nil_append, List.map_cons, List.map_nil, List.flatten_cons,
      List.flatten_nil, List.append_nil, List.length_append]
    rw [generate_chord_samples_length, generate_chord_samples_length]
    have h1 : ((60 : ℝ) / 120) * 4 * 44100 = ((88200 : ℤ) : ℝ) := by norm_num
    have h2 : (2 * 4 * ((60 : ℝ) / 120) * 44100) = ((176400 : ℤ) : ℝ) := by norm_num
    simp only [floorToNat, SAMPLE_RATE, h1, h2, Int.floor_intCast]
    rfl

/-- Witness for C4 at a concrete input: two chords at tempo 120 with 4 beats
per chord yield 176400 samples. -/
theorem c4_progression_concat_witness :
    (0 : ℝ) < 120 ∧ (0 : ℝ) < 4 ∧
    (generate_progression_samples [Chord.major Note.C, Chord.major Note.F] 4 120
        4).length = 176400 := by
  refine ⟨by norm_num, by norm_num, ?_⟩
  rw [(c4_progression_concat [Chord.major Note.C, Chord.major Note.F] 4 120 4 (by norm_num)
    (by norm_num)).2 (Chord.major Note.C) (Chord.major Note.F)]
  have h : (2 * 4 * ((60 : ℝ) / 120) * 44100) = ((176400 : ℤ) : ℝ) := by norm_num
  rw [h, Int.floor_intCast]
  rfl

theorem lowpassFrom_length (alpha prev : ℝ) (l : List ℝ) :
    (lowpassFrom alpha prev l).length = l.length := by
  induction l generalizing prev with
  | nil => rfl
  | cons s rest ih => simp [lowpassFrom, ih]

theorem lowpassFrom_getD (alpha : ℝ) (l : List ℝ) (prev : ℝ) (i : ℕ) (h : i < l.length) :
    (lowpassFrom alpha prev l).getD i 0 =
      (prev :: lowpassFrom alpha prev l).getD i 0 +
        alpha * (l.getD i 0 - (prev :: lowpassFrom alpha prev l).getD i 0) := by
  induction l generalizing prev i with
  | nil => simp at h
  | cons s rest ih =>
    cases i with
    | zero => simp [lowpassFrom]
    | succ j =>
      have hj : j < rest.length := by simpa using h
      simpa [lowpassFrom] using ih (prev + alpha * (s - prev)) j hj

/-- C8: `apply_lowpass_filter` is undefined on the empty input (the
unconditional read of `samples[0]`, modelled as `none`); on every non-empty
input it is total, preserves the length, copies the first sample, and obeys
the one-pole recurrence with `alpha = dt/(rc+dt)`, `rc = 1/(2π·cutoff)`,
`dt = 1/44100`. -/
theorem c8_lowpass_recurrence (cutoff_freq : ℝ) :
    apply_lowpass_filter [] cutoff_freq = none ∧
    ∀ samples : List ℝ, samples ≠ [] →
      ∃ out, apply_lowpass_filter samples cutoff_freq = some out ∧
        out.length = samples.length ∧
        out.getD 0 0 = samples.getD 0 0 ∧
        ∀ i : ℕ, 1 ≤ i → i < samples.length →
          out.getD i 0 = out.getD (i - 1) 0 +
            (1 / SAMPLE_RATE) / (1 / (2 * Real.pi * cutoff_freq) + 1 / SAMPLE_RATE) *
              (samples.getD i 0 - out.getD (i - 1) 0) := by
  constructor
  · rfl
  · intro samples hne
    cases samples with
    | nil => exact absurd rfl hne
    | cons s0 rest =>
      refine ⟨s0 :: lowpassFrom
        ((1 / SAMPLE_RATE) / (1 / (2 * Real.pi * cutoff_freq) + 1 / SAMPLE_RATE)) s0 rest,
        rfl, by simp [lowpassFrom_length], rfl, ?_⟩
      intro i h1 hlen
      cases i with
      | zero => exact absurd h1 (by omega)
      | succ j =>
        have hj : j < rest.length := by simpa using hlen
        simpa using lowpassFrom_getD
          ((1 / SAMPLE_RATE) / (1 / (2 * Real.pi * cutoff_freq) + 1 / SAMPLE_RATE))
          rest s0 j hj

/-- Witness for C8 at a concrete input: filtering the one-sample buffer
`[1]` succeeds and preserves the length. -/
theorem c8_lowpass_recurrence_witness :
    ([(1 : ℝ)] ≠ []) ∧
    ∃ out, apply_lowpass_filter [(1 : ℝ)] 100 = some out ∧ out.length = 1 := by
  refine ⟨by simp, ?_⟩
  obtain ⟨out, h1, h2, h3, h4⟩ := (c8_lowpass_recurrence 100).2 [(1 : ℝ)] (by simp)
  exact ⟨out, h1, h2⟩

theorem mixInto_replicate (n L : ℕ) (x v : ℝ) :
    mixInto n (List.replicate L x) (List.replicate L v) =
      List.replicate L (x + v / (n : ℝ)) := by
  induction L with
  | zero => rfl
  | succ k ih => simp [List.replicate_succ, mixInto, ih]

theorem foldl_mixInto_replicate (n m L : ℕ) (x v : ℝ) :
    (List.replicate m (List.replicate L v)).foldl (fun ac b => mixInto n ac b)
        (List.replicate L x) =
      List.replicate L (x + (m : ℝ) * (v / (n : ℝ))) := by
  induction m generalizing x with
  | zero => simp
  | succ k ih =>
    rw [List.replicate_succ, List.foldl_cons, mixInto_replicate, ih]
    congr 1
    push_cast
    ring

theorem foldl_max_replicate (k L : ℕ) : (List.replicate k L).foldl max L = L := by
  induction k with
  | zero => rfl
  | succ j ih => simpa [List.replicate_succ] using ih

theorem max?_replicate_succ (k L : ℕ) : (List.replicate (k + 1) L).max? = some L := by
  rw [List.replicate_succ]
  show some ((List.replicate k L).foldl max L) = some L
  rw [foldl_max_replicate]

/-- C9: mixing `N ≥ 1` identical constant buffers of value `v` yields the
constant buffer of value `v`, and mixing the empty list of buffers yields
the empty buffer. -/
theorem c9_mix_average :
    (∀ (N L : ℕ) (v : ℝ), 1 ≤ N →
      mix_samples (List.replicate N (List.replicate L v)) = List.replicate L v) ∧
    mix_samples [] = [] := by
  constructor
  · intro N L v hN
    obtain ⟨k, rfl⟩ : ∃ k, N = k + 1 := ⟨N - 1, by omega⟩
    simp only [mix_samples]
    rw [if_neg (by simp [List.replicate_succ])]
    have hmap : (List.replicate (k + 1) (List.replicate L v)).map List.length =
        List.replicate (k + 1) L := by
      simp
    simp only [hmap, max?_replicate_succ, Option.getD_some, List.length_replicate]
    rw [foldl_mixInto_replicate]
    congr 1
    have hk : ((k : ℝ) + 1) ≠ 0 := by positivity
    push_cast
    rw [zero_add, mul_comm, div_mul_cancel₀ _ hk]
  · rfl

/-- Witness for C9 at a concrete input: mixing two copies of the constant
buffer `[5]` yields `[5]`. -/
theorem c9_mix_average_witness :
    1 ≤ 2 ∧
    mix_samples (List.replicate 2 (List.replicate 1 (5 : ℝ))) = List.replicate 1 (5 : ℝ) :=
  ⟨by norm_num, c9_mix_average.1 2 1 5 (by norm_num)⟩

end JamTrack
